import Mathlib

/-!
Shallow embedding of the spot-price dashboard's aggregation core
(`src/src/App.tsx`) and of the older variant (`src/unnamed/part_000`).

Prices are embedded as rationals (`ℚ`): the JavaScript arithmetic here is
a fixed linear transform, sums and comparisons, whose exact semantics the
spec states "within floating-point tolerance"; over `ℚ` the laws hold
exactly.  The JS string method `timestamp.startsWith(date)` is embedded
as a prefix test on the character sequences of the two strings.  The
locale- and timezone-dependent hour formatting
(`new Date(ts).toLocaleTimeString(...)`) is embedded as an explicit
formatting parameter `fmt : String → String` applied to the winning
record's timestamp: the environment's formatter is fixed but arbitrary.
-/

/-- Embeds the `DataItem` interface of `App.tsx` (lines 5-10): one price
record with its serialized timestamp, converted price, delivery area and
unit label. -/
structure DataItem where
  timestamp : String
  price : ℚ
  deliveryArea : String
  unit : String
  deriving DecidableEq, Repr

/-- Embeds the stats record shape of `App.tsx` (lines 19-25 and 71-86). -/
structure DailyStats where
  cheapestHour : String
  mostExpensiveHour : String
  averagePrice : ℚ
  cheapestPrice : ℚ
  mostExpensivePrice : ℚ
  deriving DecidableEq, Repr

/-- Embeds `Unit.PricePerKWh` of `App.tsx` (line 13): the fixed unit label. -/
def pricePerKWh : String := "snt/kWh"

/-- Embeds the JS test `s.startsWith(pre)`: `pre`'s character sequence is
an initial segment of `s`'s. -/
def startsWithKey (s pre : String) : Bool :=
  pre.data.isPrefixOf s.data

/-- Embeds the per-item conversion inside `fetchData` (`App.tsx` lines
38-42): price times 0.1 times 1.24, unit overwritten with the fixed label. -/
def convertItem (item : DataItem) : DataItem :=
  { item with price := item.price * 0.1 * 1.24, unit := pricePerKWh }

/-- Embeds `result.map(...)` of `fetchData` (`App.tsx` lines 38-42). -/
def convertedData (result : List DataItem) : List DataItem :=
  result.map convertItem

/-- Embeds the `filteredData` memo of `App.tsx` (lines 60-63): empty when
the date is falsy (empty string) or the data array is empty, otherwise the
records whose timestamp starts with the date. -/
def filteredData (data : List DataItem) (date : String) : List DataItem :=
  if date = "" ∨ data.length = 0 then []
  else data.filter (fun item => startsWithKey item.timestamp date)

/-- Embeds the reducer `(prev, curr) => (prev.price < curr.price ? prev : curr)`
of `App.tsx` line 68. -/
def minStep (prev curr : DataItem) : DataItem :=
  if prev.price < curr.price then prev else curr

/-- Embeds the reducer `(prev, curr) => (prev.price > curr.price ? prev : curr)`
of `App.tsx` line 69. -/
def maxStep (prev curr : DataItem) : DataItem :=
  if prev.price > curr.price then prev else curr

/-- Embeds JS `Array.prototype.reduce` with no initial value: `none` models
the `TypeError` thrown on an empty array, otherwise a left fold seeded with
the first element. -/
def reduce1 (f : α → α → α) : List α → Option α
  | [] => none
  | a :: t => some (t.foldl f a)

/-- Embeds `filteredData.reduce((sum, item) => sum + item.price, 0)` of
`App.tsx` line 70. -/
def sumPrices (l : List DataItem) : ℚ :=
  l.foldl (fun sum item => sum + item.price) 0

/-- Embeds the zero/empty stats object of `App.tsx` lines 79-85. -/
def emptyStats : DailyStats :=
  { cheapestHour := "", mostExpensiveHour := "", averagePrice := 0,
    cheapestPrice := 0, mostExpensivePrice := 0 }

/-- Embeds the `calculateStats` memo of `App.tsx` (lines 66-87) with the
unseeded reduces kept fallible: `none` models a thrown exception. -/
def calculateStatsE (fmt : String → String) (filtered : List DataItem) :
    Option DailyStats :=
  if filtered.length > 0 then
    match reduce1 minStep filtered, reduce1 maxStep filtered with
    | some cheapest, some mostExpensive =>
        some { cheapestHour := fmt cheapest.timestamp,
               mostExpensiveHour := fmt mostExpensive.timestamp,
               averagePrice := sumPrices filtered / (filtered.length : ℚ),
               cheapestPrice := cheapest.price,
               mostExpensivePrice := mostExpensive.price }
    | _, _ => none
  else some emptyStats

/-- Unseeded min-reduce of `App.tsx` line 68 on a non-empty array, written
with the head as the seed. -/
def cheapestOf (a : DataItem) (t : List DataItem) : DataItem :=
  t.foldl minStep a

/-- Unseeded max-reduce of `App.tsx` line 69 on a non-empty array, written
with the head as the seed. -/
def mostExpensiveOf (a : DataItem) (t : List DataItem) : DataItem :=
  t.foldl maxStep a

/-- Pure value of the `calculateStats` memo of `App.tsx` (lines 66-87):
on a non-empty array the guard holds and each unseeded reduce succeeds, so
the memo's value is this total function of the filtered array. -/
def calculateStats (fmt : String → String) : List DataItem → DailyStats
  | [] => emptyStats
  | a :: t =>
      { cheapestHour := fmt (cheapestOf a t).timestamp,
        mostExpensiveHour := fmt (mostExpensiveOf a t).timestamp,
        averagePrice := sumPrices (a :: t) / ((a :: t).length : ℚ),
        cheapestPrice := (cheapestOf a t).price,
        mostExpensivePrice := (mostExpensiveOf a t).price }

/-- Composite aggregation contract of the spec, section 4.1: the pair of
the filtered subsequence and its stats, wired exactly as the two memos of
`App.tsx` lines 60-87. -/
def aggregate (fmt : String → String) (data : List DataItem) (date : String) :
    List DataItem × DailyStats :=
  (filteredData data date, calculateStats fmt (filteredData data date))

/-- Possible outcomes of the one network load in `fetchData` (`App.tsx`
lines 29-51): a parsed payload, a non-success HTTP status, or a network
exception carrying a message. -/
inductive FetchOutcome where
  | ok : List DataItem → FetchOutcome
  | httpError : Nat → FetchOutcome
  | networkFailure : String → FetchOutcome

/-- Component state touched by `fetchData`: the record sequence, the error
message and the loading flag. -/
structure LoadState where
  data : List DataItem
  error : Option String
  loading : Bool
  deriving DecidableEq, Repr

/-- Embeds `fetchData` of `App.tsx` (lines 29-51) as a state transition on
the outcome of the awaited request.  A non-ok response throws
`HTTP error! status: N`, caught by the same handler as a network
exception; the handler stores the message (or the fallback when the
message is empty, from `error.message || '...'`) and clears the data. -/
def fetchData (_s : LoadState) : FetchOutcome → LoadState
  | .ok result =>
      { data := convertedData result, error := none, loading := false }
  | .httpError status =>
      { data := [], error := some ("HTTP error! status: " ++ toString status),
        loading := false }
  | .networkFailure msg =>
      { data := [],
        error := some (if msg = "" then "An unknown error occurred." else msg),
        loading := false }

/-- Embeds the filter of `handleFilter` in the older variant
(`src/unnamed/part_000` line 39): no guard on an empty date or empty data. -/
def oldFiltered (data : List DataItem) (date : String) : List DataItem :=
  data.filter (fun item => startsWithKey item.timestamp date)

/-- Pure value of the stats branch of `handleFilter` in the older variant
(`src/unnamed/part_000` lines 42-57), with the same reading of the guarded
unseeded reduces as `calculateStats`. -/
def oldCalculateStats (fmt : String → String) : List DataItem → DailyStats
  | [] => { cheapestHour := "", mostExpensiveHour := "", averagePrice := 0,
            cheapestPrice := 0, mostExpensivePrice := 0 }
  | a :: t =>
      { cheapestHour :=
          fmt ((t.foldl (fun prev curr =>
            if prev.price < curr.price then prev else curr) a).timestamp),
        mostExpensiveHour :=
          fmt ((t.foldl (fun prev curr =>
            if prev.price > curr.price then prev else curr) a).timestamp),
        averagePrice :=
          ((a :: t).foldl (fun sum item => sum + item.price) 0) /
            ((a :: t).length : ℚ),
        cheapestPrice :=
          (t.foldl (fun prev curr =>
            if prev.price < curr.price then prev else curr) a).price,
        mostExpensivePrice :=
          (t.foldl (fun prev curr =>
            if prev.price > curr.price then prev else curr) a).price }

/-- The min-reducer never exceeds its left argument's price. -/
theorem minStep_price_le_left (a b : DataItem) : (minStep a b).price ≤ a.price := by
  unfold minStep
  by_cases h : a.price < b.price
  · simp [h]
  · simp only [if_neg h]
    exact le_of_not_lt h

/-- The min-reducer never exceeds its right argument's price. -/
theorem minStep_price_le_right (a b : DataItem) : (minStep a b).price ≤ b.price := by
  unfold minStep
  by_cases h : a.price < b.price
  · simp only [if_pos h]
    exact le_of_lt h
  · simp [h]

/-- The max-reducer is at least its left argument's price. -/
theorem maxStep_price_ge_left (a b : DataItem) : a.price ≤ (maxStep a b).price := by
  unfold maxStep
  by_cases h : a.price > b.price
  · simp [h]
  · simp only [if_neg h]
    exact le_of_not_lt h

/-- The max-reducer is at least its right argument's price. -/
theorem maxStep_price_ge_right (a b : DataItem) : b.price ≤ (maxStep a b).price := by
  unfold maxStep
  by_cases h : a.price > b.price
  · simp only [if_pos h]
    exact le_of_lt h
  · simp [h]

/-- The min-reduce never exceeds the seed's price. -/
theorem cheapestOf_price_le_seed (t : List DataItem) :
    ∀ a, (cheapestOf a t).price ≤ a.price := by
  induction t with
  | nil => intro a; exact le_refl _
  | cons b t ih =>
      intro a
      calc (cheapestOf a (b :: t)).price
          = (cheapestOf (minStep a b) t).price := rfl
        _ ≤ (minStep a b).price := ih _
        _ ≤ a.price := minStep_price_le_left a b

/-- The min-reduce never exceeds the price of any element of the tail. -/
theorem cheapestOf_price_le_mem (t : List DataItem) :
    ∀ a x, x ∈ t → (cheapestOf a t).price ≤ x.price := by
  induction t with
  | nil => intro a x hx; cases hx
  | cons b t ih =>
      intro a x hx
      rcases List.mem_cons.mp hx with h | h
      · subst h
        calc (cheapestOf a (x :: t)).price
            = (cheapestOf (minStep a x) t).price := rfl
          _ ≤ (minStep a x).price := cheapestOf_price_le_seed t _
          _ ≤ x.price := minStep_price_le_right a x
      · exact ih _ x h

/-- The min-reduce over `a :: t` is a lower bound on every price in `a :: t`. -/
theorem cheapestOf_price_le (t : List DataItem) (a x : DataItem)
    (hx : x ∈ a :: t) : (cheapestOf a t).price ≤ x.price := by
  rcases List.mem_cons.mp hx with h | h
  · subst h; exact cheapestOf_price_le_seed t x
  · exact cheapestOf_price_le_mem t a x h

/-- The max-reduce is at least the seed's price. -/
theorem mostExpensiveOf_price_ge_seed (t : List DataItem) :
    ∀ a, a.price ≤ (mostExpensiveOf a t).price := by
  induction t with
  | nil => intro a; exact le_refl _
  | cons b t ih =>
      intro a
      calc a.price ≤ (maxStep a b).price := maxStep_price_ge_left a b
        _ ≤ (mostExpensiveOf (maxStep a b) t).price := ih _
        _ = (mostExpensiveOf a (b :: t)).price := rfl

/-- The max-reduce is at least the price of any element of the tail. -/
theorem mostExpensiveOf_price_ge_mem (t : List DataItem) :
    ∀ a x, x ∈ t → x.price ≤ (mostExpensiveOf a t).price := by
  induction t with
  | nil => intro a x hx; cases hx
  | cons b t ih =>
      intro a x hx
      rcases List.mem_cons.mp hx with h | h
      · subst h
        calc x.price ≤ (maxStep a x).price := maxStep_price_ge_right a x
          _ ≤ (mostExpensiveOf (maxStep a x) t).price :=
            mostExpensiveOf_price_ge_seed t _
          _ = (mostExpensiveOf a (x :: t)).price := rfl
      · exact ih _ x h

/-- The max-reduce over `a :: t` is an upper bound on every price in `a :: t`. -/
theorem mostExpensiveOf_price_ge (t : List DataItem) (a x : DataItem)
    (hx : x ∈ a :: t) : x.price ≤ (mostExpensiveOf a t).price := by
  rcases List.mem_cons.mp hx with h | h
  · subst h; exact mostExpensiveOf_price_ge_seed t x
  · exact mostExpensiveOf_price_ge_mem t a x h

/-- The min-reduce returns an element of the array. -/
theorem cheapestOf_mem (t : List DataItem) : ∀ a, cheapestOf a t ∈ a :: t := by
  induction t with
  | nil => intro a; simp [cheapestOf]
  | cons b t ih =>
      intro a
      have e : cheapestOf a (b :: t) = cheapestOf (minStep a b) t := rfl
      rw [e]
      rcases List.mem_cons.mp (ih (minStep a b)) with h | h
      · rw [h]
        unfold minStep
        by_cases hab : a.price < b.price
        · simp [hab]
        · simp [hab]
      · exact List.mem_cons_of_mem _ (List.mem_cons_of_mem _ h)

/-- The max-reduce returns an element of the array. -/
theorem mostExpensiveOf_mem (t : List DataItem) :
    ∀ a, mostExpensiveOf a t ∈ a :: t := by
  induction t with
  | nil => intro a; simp [mostExpensiveOf]
  | cons b t ih =>
      intro a
      have e : mostExpensiveOf a (b :: t) = mostExpensiveOf (maxStep a b) t := rfl
      rw [e]
      rcases List.mem_cons.mp (ih (maxStep a b)) with h | h
      · rw [h]
        unfold maxStep
        by_cases hab : a.price > b.price
        · simp [hab]
        · simp [hab]
      · exact List.mem_cons_of_mem _ (List.mem_cons_of_mem _ h)

/-- The min-reduce returns the rightmost element attaining its price: it
is the first hit when the reversed array is searched for that price. -/
theorem cheapestOf_rev_find (t : List DataItem) :
    ∀ a m, m = (cheapestOf a t).price →
      ((a :: t).reverse.find? fun x => decide (x.price = m)) =
        some (cheapestOf a t) := by
  induction t with
  | nil =>
      intro a m hm
      subst hm
      simp [cheapestOf, List.find?]
  | cons b t ih =>
      intro a m hm
      have e : cheapestOf a (b :: t) = cheapestOf (minStep a b) t := rfl
      rw [e] at hm ⊢
      have ihc := ih (minStep a b) m hm
      rw [List.reverse_cons, List.find?_append] at ihc
      rw [List.reverse_cons, List.reverse_cons, List.find?_append,
        List.find?_append]
      cases h : t.reverse.find? fun x => decide (x.price = m) with
      | some x =>
          rw [h] at ihc
          simp only [Option.or] at ihc ⊢
          exact ihc
      | none =>
          rw [h] at ihc
          simp only [Option.or] at ihc ⊢
          have hpc : (decide ((minStep a b).price = m)) = true ∧
              minStep a b = cheapestOf (minStep a b) t := by
            cases hp : decide ((minStep a b).price = m) with
            | true =>
                refine ⟨rfl, ?_⟩
                simpa [List.find?, hp] using ihc
            | false => simp [List.find?, hp] at ihc
          have hmc : (minStep a b).price = m := of_decide_eq_true hpc.1
          by_cases hab : a.price < b.price
          · have hsel : minStep a b = a := by unfold minStep; exact if_pos hab
            have ham' : a.price = m := by rw [← hsel]; exact hmc
            have hbne : (decide (b.price = m)) = false := by
              apply decide_eq_false
              rw [← ham']
              exact (ne_of_lt hab).symm
            have ham : (decide (a.price = m)) = true := decide_eq_true ham'
            simp only [List.find?, hbne, ham]
            rw [← hpc.2, hsel]
          · have hsel : minStep a b = b := by unfold minStep; exact if_neg hab
            have hbm' : b.price = m := by rw [← hsel]; exact hmc
            have hbm : (decide (b.price = m)) = true := decide_eq_true hbm'
            simp only [List.find?, hbm]
            rw [← hpc.2, hsel]

/-- The max-reduce returns the rightmost element attaining its price: it
is the first hit when the reversed array is searched for that price. -/
theorem mostExpensiveOf_rev_find (t : List DataItem) :
    ∀ a m, m = (mostExpensiveOf a t).price →
      ((a :: t).reverse.find? fun x => decide (x.price = m)) =
        some (mostExpensiveOf a t) := by
  induction t with
  | nil =>
      intro a m hm
      subst hm
      simp [mostExpensiveOf, List.find?]
  | cons b t ih =>
      intro a m hm
      have e : mostExpensiveOf a (b :: t) = mostExpensiveOf (maxStep a b) t := rfl
      rw [e] at hm ⊢
      have ihc := ih (maxStep a b) m hm
      rw [List.reverse_cons, List.find?_append] at ihc
      rw [List.reverse_cons, List.reverse_cons, List.find?_append,
        List.find?_append]
      cases h : t.reverse.find? fun x => decide (x.price = m) with
      | some x =>
          rw [h] at ihc
          simp only [Option.or] at ihc ⊢
          exact ihc
      | none =>
          rw [h] at ihc
          simp only [Option.or] at ihc ⊢
          have hpc : (decide ((maxStep a b).price = m)) = true ∧
              maxStep a b = mostExpensiveOf (maxStep a b) t := by
            cases hp : decide ((maxStep a b).price = m) with
            | true =>
                refine ⟨rfl, ?_⟩
                simpa [List.find?, hp] using ihc
            | false => simp [List.find?, hp] at ihc
          have hmc : (maxStep a b).price = m := of_decide_eq_true hpc.1
          by_cases hab : a.price > b.price
          · have hsel : maxStep a b = a := by unfold maxStep; exact if_pos hab
            have ham' : a.price = m := by rw [← hsel]; exact hmc
            have hbne : (decide (b.price = m)) = false := by
              apply decide_eq_false
              rw [← ham']
              exact ne_of_lt hab
            have ham : (decide (a.price = m)) = true := decide_eq_true ham'
            simp only [List.find?, hbne, ham]
            rw [← hpc.2, hsel]
          · have hsel : maxStep a b = b := by unfold maxStep; exact if_neg hab
            have hbm' : b.price = m := by rw [← hsel]; exact hmc
            have hbm : (decide (b.price = m)) = true := decide_eq_true hbm'
            simp only [List.find?, hbm]
            rw [← hpc.2, hsel]

/-- The seeded sum-reduce computes the sum of the mapped prices. -/
theorem sumPrices_eq (l : List DataItem) :
    sumPrices l = (l.map fun x => x.price).sum := by
  have aux : ∀ (l : List DataItem) (c : ℚ),
      l.foldl (fun sum item => sum + item.price) c =
        c + (l.map fun x => x.price).sum := by
    intro l
    induction l with
    | nil => intro c; simp
    | cons a t ih => intro c; simp [ih, add_assoc]
  simpa using aux l 0

/-- A uniform lower bound on the prices bounds the sum from below. -/
theorem sum_prices_ge (lo : ℚ) :
    ∀ l : List DataItem, (∀ x ∈ l, lo ≤ x.price) →
      lo * (l.length : ℚ) ≤ (l.map fun x => x.price).sum := by
  intro l
  induction l with
  | nil => intro _; simp
  | cons a t ih =>
      intro h
      have h1 : lo ≤ a.price := h a (List.mem_cons_self a t)
      have h2 := ih fun x hx => h x (List.mem_cons_of_mem a hx)
      simp only [List.map_cons, List.sum_cons, List.length_cons]
      calc lo * (((t.length + 1 : ℕ)) : ℚ) = lo + lo * (t.length : ℚ) := by
            push_cast
            ring
        _ ≤ a.price + (t.map fun x => x.price).sum := add_le_add h1 h2

/-- A uniform upper bound on the prices bounds the sum from above. -/
theorem sum_prices_le (hi : ℚ) :
    ∀ l : List DataItem, (∀ x ∈ l, x.price ≤ hi) →
      (l.map fun x => x.price).sum ≤ hi * (l.length : ℚ) := by
  intro l
  induction l with
  | nil => intro _; simp
  | cons a t ih =>
      intro h
      have h1 : a.price ≤ hi := h a (List.mem_cons_self a t)
      have h2 := ih fun x hx => h x (List.mem_cons_of_mem a hx)
      simp only [List.map_cons, List.sum_cons, List.length_cons]
      calc a.price + (t.map fun x => x.price).sum
          ≤ hi + hi * (t.length : ℚ) := add_le_add h1 h2
        _ = hi * (((t.length + 1 : ℕ)) : ℚ) := by
            push_cast
            ring

/-- The guarded fallible stats computation always succeeds, and its value
is the pure `calculateStats`. -/
theorem calculateStatsE_eq (fmt : String → String) (l : List DataItem) :
    calculateStatsE fmt l = some (calculateStats fmt l) := by
  cases l with
  | nil => rfl
  | cons a t =>
      simp [calculateStatsE, calculateStats, reduce1, cheapestOf,
        mostExpensiveOf]

/-- The older variant's stats computation and the revised memo compute the
same pure function of the filtered array. -/
theorem oldCalculateStats_eq (fmt : String → String) (l : List DataItem) :
    oldCalculateStats fmt l = calculateStats fmt l := by
  cases l with
  | nil => rfl
  | cons a t => rfl

/-- C1 counterexample: the claim quantifies over every day key, but for the
empty day key the code returns the empty list while the empty string is a
prefix of every timestamp, so the prefix-selection reading keeps the record. -/
theorem c1_empty_key_cex :
    filteredData [⟨"2024-05-01T00:00:00", 10, "FI", "snt/kWh"⟩] "" ≠
      List.filter (fun item => startsWithKey item.timestamp "")
        [⟨"2024-05-01T00:00:00", 10, "FI", "snt/kWh"⟩] := by
  decide

/-- C1 (amended): for every sequence of records and every non-empty day
key, the filtered result equals exactly the records whose timestamp starts
with the key, kept in original order (the order- and multiplicity-
preserving `List.filter`); for the empty day key the result is empty. -/
theorem c1_filteredData_eq_filter (data : List DataItem) (date : String)
    (h : date ≠ "") :
    filteredData data date =
      data.filter fun item => startsWithKey item.timestamp date := by
  unfold filteredData
  rcases data with _ | ⟨a, t⟩
  · simp
  · simp [h]

/-- Witness for the amended C1 at a concrete sequence and day key. -/
theorem c1_filteredData_eq_filter_witness :
    filteredData [⟨"2024-05-01T00:00:00", 10, "FI", "snt/kWh"⟩,
        ⟨"2024-05-02T00:00:00", 20, "FI", "snt/kWh"⟩] "2024-05-01" =
      List.filter (fun item => startsWithKey item.timestamp "2024-05-01")
        [⟨"2024-05-01T00:00:00", 10, "FI", "snt/kWh"⟩,
         ⟨"2024-05-02T00:00:00", 20, "FI", "snt/kWh"⟩] :=
  c1_filteredData_eq_filter _ _ (by decide)

/-- C2 counterexample: with two records tied on price, the hour strings are
taken from the second (rightmost) record, not the leftmost one. -/
theorem c2_leftmost_tie_cex :
    (calculateStats (fun s => s)
        [⟨"2024-05-01T00:00:00", 1, "FI", "snt/kWh"⟩,
         ⟨"2024-05-01T01:00:00", 1, "FI", "snt/kWh"⟩]).cheapestHour =
      "2024-05-01T01:00:00" ∧
    (calculateStats (fun s => s)
        [⟨"2024-05-01T00:00:00", 1, "FI", "snt/kWh"⟩,
         ⟨"2024-05-01T01:00:00", 1, "FI", "snt/kWh"⟩]).mostExpensiveHour =
      "2024-05-01T01:00:00" ∧
    "2024-05-01T01:00:00" ≠ "2024-05-01T00:00:00" := by
  refine ⟨?_, ?_, ?_⟩ <;> decide

/-- C2 (amended): for every non-empty filtered set, `cheapestPrice` is the
minimum and `mostExpensivePrice` the maximum of the prices, each attained
by the rightmost (last) record achieving that extremum when several records
tie on price; that record's timestamp provides the corresponding hour
string. -/
theorem c2_extrema (fmt : String → String) (a : DataItem) (t : List DataItem) :
    ((calculateStats fmt (a :: t)).cheapestPrice ∈
        (a :: t).map fun x => x.price) ∧
    (∀ x ∈ a :: t, (calculateStats fmt (a :: t)).cheapestPrice ≤ x.price) ∧
    (∃ c, ((a :: t).reverse.find? fun x =>
          decide (x.price = (calculateStats fmt (a :: t)).cheapestPrice)) =
        some c ∧
      (calculateStats fmt (a :: t)).cheapestHour = fmt c.timestamp ∧
      (calculateStats fmt (a :: t)).cheapestPrice = c.price) ∧
    ((calculateStats fmt (a :: t)).mostExpensivePrice ∈
        (a :: t).map fun x => x.price) ∧
    (∀ x ∈ a :: t, x.price ≤ (calculateStats fmt (a :: t)).mostExpensivePrice) ∧
    (∃ c, ((a :: t).reverse.find? fun x =>
          decide (x.price = (calculateStats fmt (a :: t)).mostExpensivePrice)) =
        some c ∧
      (calculateStats fmt (a :: t)).mostExpensiveHour = fmt c.timestamp ∧
      (calculateStats fmt (a :: t)).mostExpensivePrice = c.price) := by
  refine ⟨?_, ?_, ?_, ?_, ?_, ?_⟩
  · exact List.mem_map_of_mem _ (cheapestOf_mem t a)
  · intro x hx
    exact cheapestOf_price_le t a x hx
  · exact ⟨cheapestOf a t, cheapestOf_rev_find t a _ rfl, rfl, rfl⟩
  · exact List.mem_map_of_mem _ (mostExpensiveOf_mem t a)
  · intro x hx
    exact mostExpensiveOf_price_ge t a x hx
  · exact ⟨mostExpensiveOf a t, mostExpensiveOf_rev_find t a _ rfl, rfl, rfl⟩

/-- C3: for a non-empty filtered set the average is the sum of the prices
divided by the count, and for the empty filtered set it is the guarded 0. -/
theorem c3_average (fmt : String → String) (a : DataItem) (t : List DataItem) :
    (calculateStats fmt (a :: t)).averagePrice =
      ((a :: t).map fun x => x.price).sum / ((a :: t).length : ℚ) ∧
    (calculateStats fmt []).averagePrice = 0 := by
  constructor
  · show sumPrices (a :: t) / ((a :: t).length : ℚ) = _
    rw [sumPrices_eq]
  · rfl

/-- C4: an empty day key or an empty filtered set yields the empty sequence
and the five zero/empty stats fields, and the guarded computation succeeds
rather than raising. -/
theorem c4_empty_policy (fmt : String → String) (data : List DataItem)
    (date : String) (h : date = "" ∨ filteredData data date = []) :
    filteredData data date = [] ∧
    (calculateStats fmt (filteredData data date)).cheapestHour = "" ∧
    (calculateStats fmt (filteredData data date)).mostExpensiveHour = "" ∧
    (calculateStats fmt (filteredData data date)).averagePrice = 0 ∧
    (calculateStats fmt (filteredData data date)).cheapestPrice = 0 ∧
    (calculateStats fmt (filteredData data date)).mostExpensivePrice = 0 ∧
    calculateStatsE fmt (filteredData data date) =
      some (calculateStats fmt (filteredData data date)) := by
  have hempty : filteredData data date = [] := by
    rcases h with h | h
    · unfold filteredData
      simp [h]
    · exact h
  rw [hempty]
  exact ⟨rfl, rfl, rfl, rfl, rfl, rfl, rfl⟩

/-- Witness for C4 at an empty day key over a non-empty sequence. -/
theorem c4_empty_policy_witness :
    filteredData [⟨"2024-05-01T00:00:00", 10, "FI", "snt/kWh"⟩] "" = [] ∧
    (calculateStats (fun s => s)
      (filteredData [⟨"2024-05-01T00:00:00", 10, "FI", "snt/kWh"⟩] "")).cheapestHour = "" ∧
    (calculateStats (fun s => s)
      (filteredData [⟨"2024-05-01T00:00:00", 10, "FI", "snt/kWh"⟩] "")).mostExpensiveHour = "" ∧
    (calculateStats (fun s => s)
      (filteredData [⟨"2024-05-01T00:00:00", 10, "FI", "snt/kWh"⟩] "")).averagePrice = 0 ∧
    (calculateStats (fun s => s)
      (filteredData [⟨"2024-05-01T00:00:00", 10, "FI", "snt/kWh"⟩] "")).cheapestPrice = 0 ∧
    (calculateStats (fun s => s)
      (filteredData [⟨"2024-05-01T00:00:00", 10, "FI", "snt/kWh"⟩] "")).mostExpensivePrice = 0 ∧
    calculateStatsE (fun s => s)
        (filteredData [⟨"2024-05-01T00:00:00", 10, "FI", "snt/kWh"⟩] "") =
      some (calculateStats (fun s => s)
        (filteredData [⟨"2024-05-01T00:00:00", 10, "FI", "snt/kWh"⟩] "")) :=
  c4_empty_policy (fun s => s) _ "" (Or.inl rfl)

/-- C5: every loaded record's stored price is the raw price times 0.1 times
1.24, and every loaded record's unit is the fixed label, so all records of
a batch share the same unit. -/
theorem c5_conversion (raw : List DataItem) :
    ((convertedData raw).map fun x => x.price) =
      (raw.map fun x => x.price * 0.1 * 1.24) ∧
    (∀ x ∈ convertedData raw, x.unit = pricePerKWh) ∧
    pricePerKWh = "snt/kWh" := by
  refine ⟨?_, ?_, rfl⟩
  · unfold convertedData
    rw [List.map_map]
    rfl
  · intro x hx
    unfold convertedData at hx
    rcases List.mem_map.mp hx with ⟨y, _, rfl⟩
    rfl

/-- C6: a non-success HTTP status and a network exception each leave the
state with a non-empty human-readable error message and an empty record
sequence, regardless of the prior state. -/
theorem c6_failure_clears (s : LoadState) (status : Nat) (msg : String) :
    ((fetchData s (.httpError status)).data = [] ∧
      ∃ m, (fetchData s (.httpError status)).error = some m ∧ m ≠ "") ∧
    ((fetchData s (.networkFailure msg)).data = [] ∧
      ∃ m, (fetchData s (.networkFailure msg)).error = some m ∧ m ≠ "") := by
  refine ⟨⟨rfl, ⟨_, rfl, ?_⟩⟩, ⟨rfl, ⟨_, rfl, ?_⟩⟩⟩
  · intro hcontra
    have hlen := congrArg String.length hcontra
    rw [String.length_append] at hlen
    have h20 : "HTTP error! status: ".length = 20 := by decide
    rw [h20] at hlen
    simp at hlen
  · by_cases hm : msg = ""
    · rw [if_pos hm]
      decide
    · rw [if_neg hm]
      exact hm

/-- C7: aggregation is total: for every record sequence and every day key
the guarded stats computation over the filtered set returns a value and
never reaches the exception of an unseeded reduce on an empty array. -/
theorem c7_total (fmt : String → String) (data : List DataItem)
    (date : String) :
    calculateStatsE fmt (filteredData data date) =
      some (calculateStats fmt (filteredData data date)) :=
  calculateStatsE_eq fmt (filteredData data date)

/-- C8: aggregation is deterministic: with the environment's formatter
fixed, two evaluations on equal record sequences and equal day keys return
equal filtered sequences and equal stats, hour strings included. -/
theorem c8_deterministic (fmt : String → String) (data₁ data₂ : List DataItem)
    (date₁ date₂ : String) (hdata : data₁ = data₂) (hdate : date₁ = date₂) :
    aggregate fmt data₁ date₁ = aggregate fmt data₂ date₂ := by
  subst hdata
  subst hdate
  rfl

/-- Witness for C8 at a concrete sequence, day key and formatter. -/
theorem c8_deterministic_witness :
    aggregate (fun s => s) [⟨"2024-05-01T00:00:00", 10, "FI", "snt/kWh"⟩]
        "2024-05-01" =
      aggregate (fun s => s) [⟨"2024-05-01T00:00:00", 10, "FI", "snt/kWh"⟩]
        "2024-05-01" :=
  c8_deterministic (fun s => s) _ _ "2024-05-01" "2024-05-01" rfl rfl

/-- C9: for every record sequence and every non-empty day key, the older
variant's filter-and-stats computation and the revised variant's memoized
computation agree on the filtered sequence and on all five stats values. -/
theorem c9_variants_agree (fmt : String → String) (data : List DataItem)
    (date : String) (h : date ≠ "") :
    oldFiltered data date = filteredData data date ∧
    oldCalculateStats fmt (oldFiltered data date) =
      calculateStats fmt (filteredData data date) := by
  have hfd : oldFiltered data date = filteredData data date := by
    unfold filteredData oldFiltered
    rcases data with _ | ⟨a, t⟩
    · simp
    · simp [h]
  refine ⟨hfd, ?_⟩
  rw [hfd, oldCalculateStats_eq]

/-- Witness for C9 at a concrete sequence and day key. -/
theorem c9_variants_agree_witness :
    oldFiltered [⟨"2024-05-01T00:00:00", 10, "FI", "snt/kWh"⟩] "2024-05-01" =
      filteredData [⟨"2024-05-01T00:00:00", 10, "FI", "snt/kWh"⟩]
        "2024-05-01" ∧
    oldCalculateStats (fun s => s)
        (oldFiltered [⟨"2024-05-01T00:00:00", 10, "FI", "snt/kWh"⟩]
          "2024-05-01") =
      calculateStats (fun s => s)
        (filteredData [⟨"2024-05-01T00:00:00", 10, "FI", "snt/kWh"⟩]
          "2024-05-01") :=
  c9_variants_agree (fun s => s) _ "2024-05-01" (by decide)

/-- C10: for every non-empty filtered set the computed stats satisfy
cheapest price at most average price at most most-expensive price. -/
theorem c10_stats_order (fmt : String → String) (a : DataItem)
    (t : List DataItem) :
    (calculateStats fmt (a :: t)).cheapestPrice ≤
      (calculateStats fmt (a :: t)).averagePrice ∧
    (calculateStats fmt (a :: t)).averagePrice ≤
      (calculateStats fmt (a :: t)).mostExpensivePrice := by
  have hn : (0 : ℚ) < ((a :: t).length : ℚ) := by
    have := Nat.succ_pos t.length
    exact_mod_cast this
  have havg : (calculateStats fmt (a :: t)).averagePrice =
      ((a :: t).map fun x => x.price).sum / ((a :: t).length : ℚ) := by
    show sumPrices (a :: t) / ((a :: t).length : ℚ) = _
    rw [sumPrices_eq]
  have hch : (calculateStats fmt (a :: t)).cheapestPrice =
      (cheapestOf a t).price := rfl
  have hex : (calculateStats fmt (a :: t)).mostExpensivePrice =
      (mostExpensiveOf a t).price := rfl
  constructor
  · rw [havg, hch, le_div_iff₀ hn]
    exact sum_prices_ge _ _ fun x hx => cheapestOf_price_le t a x hx
  · rw [havg, hex, div_le_iff₀ hn]
    exact sum_prices_le _ _ fun x hx => mostExpensiveOf_price_ge t a x hx
